import Mathlib

/-!
Verification development for the entire.io CLI checkpoint/attribution core.

The Go sources are embedded shallowly: strings are Lean `String`s (viewed
through their character lists), Go `int` is `Int` with the explicit
clamping, Go `float64` percentages are modelled as `ℚ`, maps are association
lists, and fallible operations return `Option`/`Except`.
-/

namespace Entire

/-- Character-list version of `countLinesStr` (manual_commit_attribution.go):
an empty string has 0 lines; otherwise count the newline characters, and add
one for the final line when the content does not end with a newline
(`strings.Count` + `strings.HasSuffix`). -/
def countLinesList (l : List Char) : Nat :=
  if l = [] then 0
  else l.count '\n' + (if l.getLast? = some '\n' then 0 else 1)

/-- The function `countLinesStr` from manual_commit_attribution.go, on `String`. -/
def countLinesStr (content : String) : Nat :=
  countLinesList content.data

/-- The function `countLinesInText` from manual_commit_attribution.go: counts lines in one
diff segment; the formula is the same newline count as `countLinesStr`.
Segments are kept as character lists here. -/
def countLinesInText (text : List Char) : Nat :=
  if text = [] then 0
  else text.count '\n' + (if text.getLast? = some '\n' then 0 else 1)

/-- Helper for `lineTokens`: `cur` is the (reversed) partial line read so
far; a `'\n'` closes the current token (the token keeps its newline, as in
the `DiffLinesToChars` splitting of diffmatchpatch), and a trailing partial line becomes a
final token without a newline. -/
def lineTokensAux (cur : List Char) : List Char → List (List Char)
  | [] => if cur = [] then [] else [cur.reverse]
  | c :: rest =>
      if c = '\n' then (cur.reverse ++ ['\n']) :: lineTokensAux [] rest
      else lineTokensAux (c :: cur) rest

/-- The line tokens of a text: the decomposition into lines (each including
its trailing newline, except possibly the last) that the `DiffLinesToChars` step of diffmatchpatch encodes one character per line. -/
def lineTokens (l : List Char) : List (List Char) :=
  lineTokensAux [] l

/-- A line-level diff operation, as produced by `DiffCharsToLines`: each
token of the source text is either kept or deleted, each token of the target
text is either kept or inserted. -/
inductive DiffOp where
  | equal (t : List Char)
  | ins (t : List Char)
  | del (t : List Char)
deriving DecidableEq, Repr

/-- Model of the line-based diff `dmp.DiffLinesToChars` / `dmp.DiffMain` /
`dmp.DiffCharsToLines` used by `diffLines`: an edit script over line tokens.
Any diffmatchpatch output is an edit script (its equal+delete segments
concatenate to the first text and its equal+insert segments to the second);
we model it by a longest-common-subsequence edit script, which has the same
partition property. Counting is per token, which agrees with the per-segment
source counting via `countLinesInText` because segments are concatenations of
consecutive same-type tokens. -/
def lcsDiff : List (List Char) → List (List Char) → List DiffOp
  | [], bs => bs.map .ins
  | a :: as, [] => (a :: as).map .del
  | a :: as, b :: bs =>
      if a = b then .equal a :: lcsDiff as bs
      else
        let d1 := .del a :: lcsDiff as (b :: bs)
        let d2 := .ins b :: lcsDiff (a :: as) bs
        if d1.length ≤ d2.length then d1 else d2
termination_by as bs => as.length + bs.length

/-- Tokens of the first (source) text reconstructed from an edit script:
equal and delete operations. -/
def opsSource : List DiffOp → List (List Char)
  | [] => []
  | .equal t :: rest => t :: opsSource rest
  | .del t :: rest => t :: opsSource rest
  | .ins _ :: rest => opsSource rest

/-- Tokens of the second (target) text reconstructed from an edit script:
equal and insert operations. -/
def opsTarget : List DiffOp → List (List Char)
  | [] => []
  | .equal t :: rest => t :: opsTarget rest
  | .ins t :: rest => t :: opsTarget rest
  | .del _ :: rest => opsTarget rest

/-- The per-operation line counting that the loop of `diffLines` does over the diff:
accumulate `countLinesInText` of each segment into the (unchanged, added,
removed) triple according to the operation type. -/
def diffCounts (ops : List DiffOp) : Nat × Nat × Nat :=
  ops.foldr
    (fun op acc =>
      match op with
      | .equal t => (acc.1 + countLinesInText t, acc.2.1, acc.2.2)
      | .ins t => (acc.1, acc.2.1 + countLinesInText t, acc.2.2)
      | .del t => (acc.1, acc.2.1, acc.2.2 + countLinesInText t))
    (0, 0, 0)

/-- The function `diffLines` from manual_commit_attribution.go: returns (unchanged,
added, removed) line counts between two contents, with the three
source edge-case checks ahead of the diffmatchpatch call. -/
def diffLines (checkpointContent committedContent : String) : Nat × Nat × Nat :=
  if checkpointContent = committedContent then
    (countLinesStr committedContent, 0, 0)
  else if checkpointContent = "" then
    (0, countLinesStr committedContent, 0)
  else if committedContent = "" then
    (0, 0, countLinesStr checkpointContent)
  else
    diffCounts (lcsDiff (lineTokens checkpointContent.data) (lineTokens committedContent.data))

/-! ## Attribution engine (`CalculateAttribution`, manual_commit_attribution.go) -/

/-- A git tree for attribution purposes: `none` models a nil `*object.Tree`,
`some entries` maps file paths to their blob contents. -/
def Tree := Option (List (String × String))

/-- The function `getFileContent` from manual_commit_attribution.go: empty string for a
nil tree, a missing file (or a file whose content cannot be read), or binary
content (containing a null byte). -/
def getFileContent (tree : Tree) (path : String) : String :=
  match tree with
  | none => ""
  | some entries =>
      match entries.find? (fun p => p.1 == path) with
      | none => ""
      | some p => if p.2.data.contains (Char.ofNat 0) then "" else p.2

/-- The five per-file accumulators of the `CalculateAttribution` loop
(`totalAgentAdded`, `totalHumanAdded`, `totalHumanModified`,
`totalHumanRemoved`, `totalCommitAdded`), as Go `int`s. -/
structure Totals where
  agentAdded : Int
  humanAdded : Int
  humanModified : Int
  humanRemoved : Int
  commitAdded : Int
deriving DecidableEq, Repr

/-- Pointwise sum of two accumulator records (the `+=` lines of the loop). -/
def Totals.add (x y : Totals) : Totals :=
  ⟨x.agentAdded + y.agentAdded, x.humanAdded + y.humanAdded,
   x.humanModified + y.humanModified, x.humanRemoved + y.humanRemoved,
   x.commitAdded + y.commitAdded⟩

/-- One iteration of the `CalculateAttribution` loop over `filesTouched`: the
contribution of a single file given its three contents. A file whose base
content equals its committed content is skipped (`continue`), contributing
zero; otherwise the clamped source arithmetic on the two pairwise diffs. -/
def fileContribution (baseContent checkpointContent committedContent : String) : Totals :=
  if baseContent = committedContent then ⟨0, 0, 0, 0, 0⟩
  else
    let commitDiff := diffLines baseContent committedContent
    let commitAdded : Int := commitDiff.2.1
    let commitRemoved : Int := commitDiff.2.2
    let humanDiff := diffLines checkpointContent committedContent
    let humanAdded : Int := humanDiff.2.1
    let humanRemoved : Int := humanDiff.2.2
    let agentAdded0 := commitAdded - humanAdded
    let agentAdded := if agentAdded0 < 0 then 0 else agentAdded0
    let humanModified := min humanAdded humanRemoved
    let pureHumanAdded := humanAdded - humanModified
    let pureHumanRemoved := humanRemoved - humanModified
    let agentRemovedFromBase0 : Int :=
      (countLinesStr baseContent : Int) - (countLinesStr checkpointContent : Int)
    let agentRemovedFromBase := if agentRemovedFromBase0 < 0 then 0 else agentRemovedFromBase0
    let actualHumanRemoved0 := commitRemoved - agentRemovedFromBase
    let actualHumanRemoved1 := if actualHumanRemoved0 < 0 then 0 else actualHumanRemoved0
    let actualHumanRemoved :=
      if actualHumanRemoved1 > pureHumanRemoved then pureHumanRemoved else actualHumanRemoved1
    ⟨agentAdded, pureHumanAdded, humanModified, actualHumanRemoved, commitAdded⟩

/-- The aggregate of the `CalculateAttribution` loop over all touched files. -/
def attributionTotals (baseTree checkpointTree committedTree : Tree)
    (filesTouched : List String) : Totals :=
  filesTouched.foldl
    (fun acc filePath =>
      acc.add (fileContribution (getFileContent baseTree filePath)
        (getFileContent checkpointTree filePath) (getFileContent committedTree filePath)))
    ⟨0, 0, 0, 0, 0⟩

/-- The record `checkpoint.InitialAttribution`, the commit-time result. The
`CalculatedAt` timestamp (`time.Now()`) is omitted from the model; the
`float64` percentage is modelled as a rational. -/
structure InitialAttribution where
  AgentLines : Int
  HumanAdded : Int
  HumanModified : Int
  HumanRemoved : Int
  TotalCommitted : Int
  AgentPercentage : ℚ
deriving DecidableEq, Repr

/-- The function `CalculateAttribution` from manual_commit_attribution.go: nil for an
empty `filesTouched`; otherwise aggregates per-file contributions, falls
back to `totalAgentAdded` as the denominator when the commit added no
lines, and guards the division by zero. -/
def CalculateAttribution (baseTree checkpointTree committedTree : Tree)
    (filesTouched : List String) : Option InitialAttribution :=
  if filesTouched = [] then none
  else
    let t := attributionTotals baseTree checkpointTree committedTree filesTouched
    let totalInCommit := if t.commitAdded = 0 then t.agentAdded else t.commitAdded
    let agentPercentage : ℚ :=
      if 0 < totalInCommit then (t.agentAdded : ℚ) / (totalInCommit : ℚ) * 100 else 0
    some ⟨t.agentAdded, t.humanAdded, t.humanModified, t.humanRemoved,
      totalInCommit, agentPercentage⟩

/-! ## Shadow-branch migration (`migrateShadowBranchIfNeeded`, manual_commit_migration.go) -/

/-- The session-state fields read and written by the migration (the full
`SessionState` record has further fields not touched here). A nil state
pointer behaves like the empty `BaseCommit` guard and is not modelled
separately. -/
structure SessionState where
  BaseCommit : String
  WorktreeID : String
deriving DecidableEq, Repr

/-- Modelled from the spec: `checkpoint.ShadowBranchNameForCommit`
(`NameFor(baseCommit, worktreeID)`) is not under src/; the spec requires a
deterministic derivation from the pair such that equal inputs converge on
the same ref name. The concrete format here keeps both inputs so that
distinct base commits yield distinct names. -/
def ShadowBranchNameForCommit (baseCommit worktreeID : String) : String :=
  "entire/" ++ worktreeID ++ "/" ++ baseCommit

/-- The git-repository surface used by the migration: `repo.Head()` (`none`
models a lookup error), the branch-ref store, and failure switches for the
two `repo.Storer` write operations. -/
structure GitRepo where
  head : Option String
  refs : List (String × String)
  setRefFails : Bool
  removeRefFails : Bool

/-- The operation `repo.Reference(name, true)`: resolve a branch ref to its hash. -/
def refLookup (refs : List (String × String)) (name : String) : Option String :=
  (refs.find? (fun p => p.1 == name)).map (fun p => p.2)

/-- The operation `repo.Storer.SetReference`: create or overwrite a branch ref. -/
def refSet (refs : List (String × String)) (name hash : String) : List (String × String) :=
  match refs with
  | [] => [(name, hash)]
  | p :: rest => if p.1 = name then (name, hash) :: rest else p :: refSet rest name hash

/-- The operation `repo.Storer.RemoveReference`: delete a branch ref. -/
def refRemove (refs : List (String × String)) (name : String) : List (String × String) :=
  refs.filter (fun p => ¬ p.1 = name)

/-- The function `migrateShadowBranchIfNeeded` from manual_commit_migration.go: returns
the `(migrated, error)` pair together with the updated session state and
ref store (the Go function mutates these in place). Stderr diagnostics are
not modelled. -/
def migrateShadowBranchIfNeeded (repo : GitRepo) (state : SessionState) :
    Except String (Bool × SessionState × List (String × String)) :=
  if state.BaseCommit = "" then .ok (false, state, repo.refs)
  else
    match repo.head with
    | none => .error "failed to get HEAD"
    | some currentHead =>
        if state.BaseCommit = currentHead then .ok (false, state, repo.refs)
        else
          let oldShadowBranch := ShadowBranchNameForCommit state.BaseCommit state.WorktreeID
          let newShadowBranch := ShadowBranchNameForCommit currentHead state.WorktreeID
          match refLookup repo.refs oldShadowBranch with
          | none =>
              -- Old shadow branch does not exist: just update state.BaseCommit.
              .ok (true, { state with BaseCommit := currentHead }, repo.refs)
          | some oldHash =>
              if repo.setRefFails then
                .error ("failed to create new shadow branch " ++ newShadowBranch)
              else
                let refs1 := refSet repo.refs newShadowBranch oldHash
                -- A RemoveReference failure is logged and ignored.
                let refs2 := if repo.removeRefFails then refs1 else refRemove refs1 oldShadowBranch
                .ok (true, { state with BaseCommit := currentHead }, refs2)

/-! ## Concurrency gate (prompt-submit hook) -/

/-- The session-state fields the concurrency gate reads and writes. -/
structure GateSession where
  CheckpointCount : Nat
  ConcurrentWarningShown : Bool
deriving DecidableEq, Repr

/-- The structured continue/block decision returned by the prompt-submit
hook (`continue` and `stopReason` in the JSON response); `continueFlag =
false` means the agent is not invoked. -/
structure PromptDecision where
  continueFlag : Bool
  stopReason : String
deriving DecidableEq, Repr

/-- Modelled from the spec: `DetectConcurrentSession` is not under src/
(only its integration tests are). A live session sharing context conflicts
exactly when it has `CheckpointCount > 0`. -/
def detectConcurrentSession (others : List GateSession) : Bool :=
  others.any (fun s => 0 < s.CheckpointCount)

/-- Modelled from the spec: the concurrency gate of the prompt-submit hook is not
under src/ (only its integration tests are). A session that has already been
shown the warning always proceeds; otherwise a detected conflicting session
blocks the prompt with a human-readable reason and sets
`ConcurrentWarningShown` on the state of the session. -/
def handlePromptSubmit (others : List GateSession) (st : GateSession) :
    PromptDecision × GateSession :=
  if st.ConcurrentWarningShown then (⟨true, ""⟩, st)
  else if detectConcurrentSession others then
    (⟨false, "Another session is active with uncommitted checkpoints"⟩,
     { st with ConcurrentWarningShown := true })
  else (⟨true, ""⟩, st)

/-! ## Checkpoint identity (package checkpoint/id) -/

/-- Modelled from the spec: the checkpoint/id implementation is not under
src/ (only its tests are). A `CheckpointID` is a string required to be 12
lowercase hexadecimal characters or the empty sentinel. -/
structure CheckpointID where
  value : String
deriving DecidableEq, Repr

/-- The method `CheckpointID.String()`. -/
def CheckpointID.str (id : CheckpointID) : String := id.value

/-- The value `EmptyCheckpointID`, the unset sentinel. -/
def EmptyCheckpointID : CheckpointID := ⟨""⟩

/-- The method `CheckpointID.IsEmpty()`. -/
def CheckpointID.IsEmpty (id : CheckpointID) : Bool := id.value = ""

/-- A lowercase hexadecimal character, `[0-9a-f]`. -/
def isHexLower (c : Char) : Bool :=
  (48 ≤ c.toNat && c.toNat ≤ 57) || (97 ≤ c.toNat && c.toNat ≤ 102)

/-- Modelled from the spec: `NewCheckpointID` / `Parse` (not under src/)
fails unless the input is exactly 12 characters drawn from `[0-9a-f]`; the
error value is collapsed to `none`. -/
def NewCheckpointID (s : String) : Option CheckpointID :=
  if s.length = 12 && s.data.all isHexLower then some ⟨s⟩ else none

/-- The lowercase hexadecimal digit for a value below 16. -/
def hexDigitChar (n : Nat) : Char :=
  if n < 10 then Char.ofNat (48 + n) else Char.ofNat (87 + n)

/-- Hexadecimal encoding of one byte: two lowercase hex digits. -/
def byteToHex (b : Fin 256) : List Char :=
  [hexDigitChar (b.val / 16), hexDigitChar (b.val % 16)]

/-- Modelled from the spec: `Generate` (not under src/) draws 6 random bytes
and hex-encodes them into a 12-character lowercase-hex id, failing when the
entropy source cannot supply the bytes. The random source is modelled as
the list of bytes it yields. -/
def Generate (entropy : List (Fin 256)) : Option CheckpointID :=
  if entropy.length < 6 then none
  else some ⟨String.mk ((entropy.take 6).flatMap byteToHex)⟩

/-- The method `CheckpointID.Path()`: for length ≥ 3 the two-level sharded path
`s[0:2] + "/" + s[2:]`, shorter strings unchanged. (Go slices bytes; ids
are ASCII, so character indexing agrees.) -/
def CheckpointID.Path (id : CheckpointID) : String :=
  if 3 ≤ id.value.length then id.value.take 2 ++ "/" ++ id.value.drop 2
  else id.value

/-! ## Accumulated attribution (`CalculateAttributionWithAccumulated`) -/

/-- The struct `PromptAttribution` from manual_commit_types.go (shown in the
attribution document): the user edits captured before one agent turn.
The `UserAddedPerFile` Go map is an association list here; a missing key
reads as 0, as Go map indexing does. -/
structure PromptAttribution where
  UserLinesAdded : Int
  UserLinesRemoved : Int
  UserAddedPerFile : List (String × Int)
deriving DecidableEq, Repr

/-- Go map indexing with the zero value for missing keys. -/
def mapGet (m : List (String × Int)) (k : String) : Int :=
  match m.find? (fun p => p.1 == k) with
  | none => 0
  | some p => p.2

/-- Add `v` to key `k` of the map (`m[k] += v`). -/
def mapAdd (m : List (String × Int)) (k : String) (v : Int) : List (String × Int) :=
  match m with
  | [] => [(k, v)]
  | p :: rest => if p.1 = k then (p.1, p.2 + v) :: rest else p :: mapAdd rest k v

/-- Merge two per-file maps, summing counts per file. -/
def mergeAdd (m1 m2 : List (String × Int)) : List (String × Int) :=
  m2.foldl (fun acc kv => mapAdd acc kv.1 kv.2) m1

/-- The function `estimateUserSelfModifications` (shown in the attribution document):
for each file with post-checkpoint user removals, assume the user removed
their own accumulated additions to that file first, so the self-modified
count per file is `min(removed, accumulatedUserAddedPerFile[file])`. -/
def estimateUserSelfModifications
    (accumulatedUserAddedPerFile postCheckpointUserRemovedPerFile : List (String × Int)) : Int :=
  postCheckpointUserRemovedPerFile.foldl
    (fun selfModified kv => selfModified + min kv.2 (mapGet accumulatedUserAddedPerFile kv.1))
    0

/-- The accumulated-attribution result fields named by the worked example
of the spec. -/
structure AccumulatedAttribution where
  selfModified : Int
  humanModifiedAgentLines : Int
  agentLinesInCommit : Int
  totalCommitted : Int
  agentPercentage : ℚ
deriving DecidableEq, Repr

/-- Modelled from the spec: `CalculateAttributionWithAccumulated`
(manual_commit_attribution.go) is not under src/; the computation follows
spec steps 1-5 and the worked example of the attribution document. Inputs:
the per-prompt captures, the base-to-shadow added line count, and the
post-checkpoint (shadow-to-head) per-file added and removed counts. -/
def CalculateAttributionWithAccumulated (prompts : List PromptAttribution)
    (baseToShadowAdded : Int)
    (postCheckpointAddedPerFile postCheckpointRemovedPerFile : List (String × Int)) :
    AccumulatedAttribution :=
  let accumulatedUserAdded := (prompts.map (fun p => p.UserLinesAdded)).sum
  let accumulatedUserRemoved := (prompts.map (fun p => p.UserLinesRemoved)).sum
  let accumulatedUserAddedPerFile :=
    prompts.foldl (fun acc p => mergeAdd acc p.UserAddedPerFile) []
  let postAdded := (postCheckpointAddedPerFile.map (fun kv => kv.2)).sum
  let postRemoved := (postCheckpointRemovedPerFile.map (fun kv => kv.2)).sum
  let totalAgentAdded := max 0 (baseToShadowAdded - accumulatedUserAdded)
  let totalUserAdded := accumulatedUserAdded + postAdded
  let totalUserRemoved := accumulatedUserRemoved + postRemoved
  let totalHumanModified := min totalUserAdded totalUserRemoved
  let totalSelfModified :=
    estimateUserSelfModifications accumulatedUserAddedPerFile postCheckpointRemovedPerFile
  let humanModifiedAgentLines := max 0 (totalHumanModified - totalSelfModified)
  let agentLinesInCommit := max 0 (totalAgentAdded - humanModifiedAgentLines)
  let pureUserAdded := totalUserAdded - totalHumanModified
  let totalCommitted := agentLinesInCommit + pureUserAdded
  let agentPercentage : ℚ :=
    if 0 < totalCommitted then (agentLinesInCommit : ℚ) / (totalCommitted : ℚ) * 100 else 0
  ⟨totalSelfModified, humanModifiedAgentLines, agentLinesInCommit, totalCommitted,
    agentPercentage⟩

/-! ## Helper lemmas about line tokens and edit scripts -/

lemma opsSource_lcsDiff (as bs : List (List Char)) : opsSource (lcsDiff as bs) = as := by
  induction as, bs using lcsDiff.induct with
  | case1 bs =>
      simp only [lcsDiff]
      induction bs with
      | nil => simp [opsSource]
      | cons b bs ih => simpa [opsSource] using ih
  | case2 a as =>
      simp only [lcsDiff]
      induction as with
      | nil => simp [opsSource]
      | cons a2 as ih => simpa [opsSource] using ih
  | case3 as b bs ih =>
      simp [lcsDiff, opsSource, ih]
  | case4 a as b bs hne d1 d2 hle ih1 ih2 =>
      simp only [lcsDiff, if_neg hne]
      split <;> simp [opsSource, ih1, ih2]
  | case5 a as b bs hne d1 d2 hle ih1 ih2 =>
      simp only [lcsDiff, if_neg hne]
      split <;> simp [opsSource, ih1, ih2]

lemma opsTarget_lcsDiff (as bs : List (List Char)) : opsTarget (lcsDiff as bs) = bs := by
  induction as, bs using lcsDiff.induct with
  | case1 bs =>
      simp only [lcsDiff]
      induction bs with
      | nil => simp [opsTarget]
      | cons b bs ih => simpa [opsTarget] using ih
  | case2 a as =>
      simp only [lcsDiff]
      induction as with
      | nil => simp [opsTarget]
      | cons a2 as ih => simpa [opsTarget] using ih
  | case3 as b bs ih =>
      simp [lcsDiff, opsTarget, ih]
  | case4 a as b bs hne d1 d2 hle ih1 ih2 =>
      simp only [lcsDiff, if_neg hne]
      split <;> simp [opsTarget, ih1, ih2]
  | case5 a as b bs hne d1 d2 hle ih1 ih2 =>
      simp only [lcsDiff, if_neg hne]
      split <;> simp [opsTarget, ih1, ih2]

lemma diffCounts_target (ops : List DiffOp) :
    (diffCounts ops).1 + (diffCounts ops).2.1 =
      ((opsTarget ops).map countLinesInText).sum := by
  induction ops with
  | nil => simp [diffCounts, opsTarget]
  | cons op rest ih =>
      cases op <;> simp [diffCounts, opsTarget, List.foldr_cons] at * <;> omega

lemma diffCounts_source (ops : List DiffOp) :
    (diffCounts ops).1 + (diffCounts ops).2.2 =
      ((opsSource ops).map countLinesInText).sum := by
  induction ops with
  | nil => simp [diffCounts, opsSource]
  | cons op rest ih =>
      cases op <;> simp [diffCounts, opsSource, List.foldr_cons] at * <;> omega

lemma lineTokensAux_token_lines (l : List Char) :
    ∀ cur, '\n' ∉ cur → ∀ t ∈ lineTokensAux cur l, countLinesInText t = 1 := by
  induction l with
  | nil =>
      intro cur hcur t ht
      simp only [lineTokensAux] at ht
      split at ht
      · simp at ht
      · next hne =>
        simp only [List.mem_singleton] at ht
        subst ht
        have hrev : '\n' ∉ cur.reverse := by simpa using hcur
        have hne2 : cur.reverse ≠ [] := by simpa using hne
        have hcount : cur.reverse.count '\n' = 0 := List.count_eq_zero.mpr hrev
        have hlast : ¬ cur.head? = some '\n' := by
          cases cur with
          | nil => simp
          | cons c cs =>
              simp only [List.head?_cons, Option.some.injEq]
              intro h
              exact hcur (h ▸ List.mem_cons_self c cs)
        simp [countLinesInText, hne2, hcount, List.getLast?_reverse, hlast]
  | cons c rest ih =>
      intro cur hcur t ht
      simp only [lineTokensAux] at ht
      by_cases hc : c = '\n'
      · rw [if_pos hc] at ht
        rcases List.mem_cons.mp ht with h | h
        · subst h
          have hrev : '\n' ∉ cur.reverse := by simpa using hcur
          have hcount : cur.reverse.count '\n' = 0 := List.count_eq_zero.mpr hrev
          have hne : cur.reverse ++ ['\n'] ≠ [] := by simp
          have hlast : (cur.reverse ++ ['\n']).getLast? = some '\n' := by
            simp [List.getLast?_concat]
          simp [countLinesInText, hne, hlast, List.count_append, hcount]
        · exact ih [] (by simp) t h
      · rw [if_neg hc] at ht
        exact ih (c :: cur) (by simp [hcur, Ne.symm hc]) t ht

lemma lineTokens_token_lines (l : List Char) :
    ∀ t ∈ lineTokens l, countLinesInText t = 1 :=
  lineTokensAux_token_lines l [] (by simp)

lemma lineTokensAux_length (l : List Char) :
    ∀ cur, '\n' ∉ cur →
      (lineTokensAux cur l).length =
        l.count '\n' +
          (if l = [] then (if cur = [] then 0 else 1)
           else if l.getLast? = some '\n' then 0 else 1) := by
  induction l with
  | nil =>
      intro cur _
      simp only [lineTokensAux]
      split <;> simp_all
  | cons c rest ih =>
      intro cur hcur
      simp only [lineTokensAux]
      by_cases hc : c = '\n'
      · subst hc
        rw [if_pos rfl]
        have := ih [] (by simp)
        cases rest with
        | nil => simp [lineTokensAux]
        | cons r rs =>
            simp only [List.length_cons, this, List.count_cons, List.getLast?_cons_cons]
            have hne : r :: rs ≠ [] := by simp
            simp only [if_neg hne]
            split <;> simp <;> omega
      · rw [if_neg hc]
        have := ih (c :: cur) (by simp [hcur, Ne.symm hc])
        cases rest with
        | nil =>
            simp only [this, List.count_nil, List.count_cons]
            have h1 : (c :: cur) ≠ [] := by simp
            have h2 : ([c] : List Char).getLast? = some c := rfl
            simp [h1, hc]
        | cons r rs =>
            simp only [this, List.count_cons, List.getLast?_cons_cons]
            have hne : r :: rs ≠ [] := by simp
            simp [hne, hc]

lemma lineTokens_length (l : List Char) :
    (lineTokens l).length = countLinesList l := by
  have := lineTokensAux_length l [] (by simp)
  simp only [lineTokens, this, countLinesList]
  split <;> simp_all

lemma sum_map_ones {tokens : List (List Char)}
    (h : ∀ t ∈ tokens, countLinesInText t = 1) :
    (tokens.map countLinesInText).sum = tokens.length := by
  induction tokens with
  | nil => simp
  | cons t rest ih =>
      simp only [List.map_cons, List.sum_cons, h t (by simp), List.length_cons]
      rw [ih (fun t ht => h t (List.mem_cons_of_mem _ ht))]
      omega

lemma diffCounts_lcsDiff_target (a b : String) :
    (diffCounts (lcsDiff (lineTokens a.data) (lineTokens b.data))).1 +
      (diffCounts (lcsDiff (lineTokens a.data) (lineTokens b.data))).2.1 =
      countLinesStr b := by
  rw [diffCounts_target, opsTarget_lcsDiff,
    sum_map_ones (lineTokens_token_lines b.data), lineTokens_length]
  rfl

lemma diffCounts_lcsDiff_source (a b : String) :
    (diffCounts (lcsDiff (lineTokens a.data) (lineTokens b.data))).1 +
      (diffCounts (lcsDiff (lineTokens a.data) (lineTokens b.data))).2.2 =
      countLinesStr a := by
  rw [diffCounts_source, opsSource_lcsDiff,
    sum_map_ones (lineTokens_token_lines a.data), lineTokens_length]
  rfl

lemma fileContribution_bounds (base cp comm : String) :
    0 ≤ (fileContribution base cp comm).agentAdded ∧
      (fileContribution base cp comm).agentAdded ≤ (fileContribution base cp comm).commitAdded ∧
      0 ≤ (fileContribution base cp comm).commitAdded := by
  by_cases h : base = comm
  · simp [fileContribution, h]
  · simp only [fileContribution, if_neg h]
    have hcA : (0 : Int) ≤ ((diffLines base comm).2.1 : Int) := Int.natCast_nonneg _
    have hhA : (0 : Int) ≤ ((diffLines cp comm).2.1 : Int) := Int.natCast_nonneg _
    split_ifs <;> refine ⟨?_, ?_, ?_⟩
    all_goals omega

lemma attributionTotals_bounds (bT cT mT : Tree) (fs : List String) :
    0 ≤ (attributionTotals bT cT mT fs).agentAdded ∧
      (attributionTotals bT cT mT fs).agentAdded ≤ (attributionTotals bT cT mT fs).commitAdded ∧
      0 ≤ (attributionTotals bT cT mT fs).commitAdded := by
  have main : ∀ (fs : List String) (acc : Totals),
      0 ≤ acc.agentAdded → acc.agentAdded ≤ acc.commitAdded → 0 ≤ acc.commitAdded →
      0 ≤ (fs.foldl
          (fun acc filePath =>
            acc.add (fileContribution (getFileContent bT filePath)
              (getFileContent cT filePath) (getFileContent mT filePath))) acc).agentAdded ∧
        (fs.foldl
          (fun acc filePath =>
            acc.add (fileContribution (getFileContent bT filePath)
              (getFileContent cT filePath) (getFileContent mT filePath))) acc).agentAdded ≤
          (fs.foldl
          (fun acc filePath =>
            acc.add (fileContribution (getFileContent bT filePath)
              (getFileContent cT filePath) (getFileContent mT filePath))) acc).commitAdded ∧
        0 ≤ (fs.foldl
          (fun acc filePath =>
            acc.add (fileContribution (getFileContent bT filePath)
              (getFileContent cT filePath) (getFileContent mT filePath))) acc).commitAdded := by
    intro fs
    induction fs with
    | nil => intro acc h1 h2 h3; exact ⟨h1, h2, h3⟩
    | cons f rest ih =>
        intro acc h1 h2 h3
        simp only [List.foldl_cons]
        have hc := fileContribution_bounds (getFileContent bT f)
          (getFileContent cT f) (getFileContent mT f)
        exact ih _ (by simp only [Totals.add]; omega) (by simp only [Totals.add]; omega)
          (by simp only [Totals.add]; omega)
  exact main fs ⟨0, 0, 0, 0, 0⟩ (by simp) (by simp) (by simp)

lemma attributionTotals_nil_trees (fs : List String) :
    attributionTotals none none none fs = ⟨0, 0, 0, 0, 0⟩ := by
  have step : ∀ f, fileContribution (getFileContent none f)
      (getFileContent none f) (getFileContent none f) = ⟨0, 0, 0, 0, 0⟩ := by
    intro f
    simp [getFileContent, fileContribution]
  unfold attributionTotals
  induction fs with
  | nil => rfl
  | cons f rest ih =>
      simp only [List.foldl_cons, step]
      have hz : (⟨0, 0, 0, 0, 0⟩ : Totals).add ⟨0, 0, 0, 0, 0⟩ = ⟨0, 0, 0, 0, 0⟩ := rfl
      rw [hz]
      exact ih

lemma shadowBranchName_inj (b1 b2 w : String) (h : b1 ≠ b2) :
    ShadowBranchNameForCommit b1 w ≠ ShadowBranchNameForCommit b2 w := by
  intro he
  apply h
  have hd := congrArg String.data he
  simp only [ShadowBranchNameForCommit, String.data_append] at hd
  exact String.ext (List.append_cancel_left hd)

lemma refLookup_refSet_self (refs : List (String × String)) (n h : String) :
    refLookup (refSet refs n h) n = some h := by
  induction refs with
  | nil => simp [refSet, refLookup]
  | cons p rest ih =>
      by_cases hp : p.1 = n
      · simp [refSet, hp, refLookup]
      · simp only [refSet, if_neg hp]
        simpa [refLookup, List.find?_cons, hp] using ih

lemma refLookup_refSet_other (refs : List (String × String)) (n h m : String)
    (hne : m ≠ n) : refLookup (refSet refs n h) m = refLookup refs m := by
  induction refs with
  | nil => simp [refSet, refLookup, Ne.symm hne]
  | cons p rest ih =>
      by_cases hp : p.1 = n
      · simp only [refSet, if_pos hp]
        simp [refLookup, List.find?_cons, hp, Ne.symm hne]
      · simp only [refSet, if_neg hp]
        by_cases hm : p.1 = m
        · simp [refLookup, List.find?_cons, hm]
        · simpa [refLookup, List.find?_cons, hm] using ih

lemma refLookup_refRemove_self (refs : List (String × String)) (n : String) :
    refLookup (refRemove refs n) n = none := by
  induction refs with
  | nil => simp [refRemove, refLookup]
  | cons p rest ih =>
      by_cases hp : p.1 = n
      · rw [show refRemove (p :: rest) n = refRemove rest n by
          simp [refRemove, List.filter_cons, hp]]
        exact ih
      · rw [show refRemove (p :: rest) n = p :: refRemove rest n by
          simp [refRemove, List.filter_cons, hp]]
        rw [show refLookup (p :: refRemove rest n) n = refLookup (refRemove rest n) n by
          simp [refLookup, List.find?_cons, hp]]
        exact ih

lemma refLookup_refRemove_other (refs : List (String × String)) (n m : String)
    (hne : m ≠ n) : refLookup (refRemove refs n) m = refLookup refs m := by
  induction refs with
  | nil => simp [refRemove, refLookup]
  | cons p rest ih =>
      by_cases hp : p.1 = n
      · subst hp
        simp only [refRemove, List.filter_cons] at ih ⊢
        simpa [refLookup, List.find?_cons, Ne.symm hne] using ih
      · simp only [refRemove, List.filter_cons] at ih ⊢
        by_cases hm : p.1 = m
        · simp [refLookup, List.find?_cons, hm, hp, hne]
        · simp only [decide_not, hp]
          simpa [refLookup, List.find?_cons, hm, hp] using ih

/-! ## Claim theorems -/

/-- C1: for a touched file whose base content differs from its committed
content, the per-file contribution of the `CalculateAttribution` loop is:
agent-added is `max 0 (commitAdded - humanAdded)`; human-modified is
`min humanAdded humanRemoved`; pure human-added/removed subtract it; and the
human-removed contribution is `commitRemoved - max 0 (linesIn base -
linesIn checkpoint)` clamped to `[0, pureHumanRemoved]`; the commit-added
contribution is `commitAdded`. A file whose base content equals its
committed content contributes zero to every aggregate. -/
theorem claim_c1_per_file_attribution (base cp comm : String) :
    (base ≠ comm →
      fileContribution base cp comm =
        ⟨max 0 (((diffLines base comm).2.1 : Int) - ((diffLines cp comm).2.1 : Int)),
         ((diffLines cp comm).2.1 : Int) -
           min ((diffLines cp comm).2.1 : Int) ((diffLines cp comm).2.2 : Int),
         min ((diffLines cp comm).2.1 : Int) ((diffLines cp comm).2.2 : Int),
         min (((diffLines cp comm).2.2 : Int) -
             min ((diffLines cp comm).2.1 : Int) ((diffLines cp comm).2.2 : Int))
           (max 0 (((diffLines base comm).2.2 : Int) -
             max 0 ((countLinesStr base : Int) - (countLinesStr cp : Int)))),
         ((diffLines base comm).2.1 : Int)⟩) ∧
    (base = comm → fileContribution base cp comm = ⟨0, 0, 0, 0, 0⟩) := by
  constructor
  · intro h
    simp only [fileContribution, if_neg h]
    have h1 : (0 : Int) ≤ ((diffLines cp comm).2.1 : Int) := Int.natCast_nonneg _
    have h2 : (0 : Int) ≤ ((diffLines cp comm).2.2 : Int) := Int.natCast_nonneg _
    simp only [Totals.mk.injEq]
    refine ⟨?_, ?_, ?_, ?_, ?_⟩ <;>
      first
        | trivial
        | (simp only [min_def, max_def]; split_ifs <;> omega)
  · intro h
    simp [fileContribution, h]

/-- C8: for every string `a`, `diffLines a a = (countLinesStr a, 0, 0)`,
`diffLines "" a = (0, countLinesStr a, 0)` and
`diffLines a "" = (0, 0, countLinesStr a)`; and `countLinesStr` returns 0 on
`""`, 1 on `"x"`, 2 on `"a\nb\n"` and 2 on `"a\nb"` (no phantom line for a
missing trailing newline). -/
theorem claim_c8_diff_totality_and_line_counting :
    (∀ a : String, diffLines a a = (countLinesStr a, 0, 0)) ∧
    (∀ a : String, diffLines "" a = (0, countLinesStr a, 0)) ∧
    (∀ a : String, diffLines a "" = (0, 0, countLinesStr a)) ∧
    countLinesStr "" = 0 ∧ countLinesStr "x" = 1 ∧
    countLinesStr "a\nb\n" = 2 ∧ countLinesStr "a\nb" = 2 := by
  refine ⟨?_, ?_, ?_, by decide, by decide, by decide, by decide⟩
  · intro a
    simp [diffLines]
  · intro a
    by_cases h : a = ""
    · subst h
      simp [diffLines]
      decide
    · simp [diffLines, h, Ne.symm h]
  · intro a
    by_cases h : a = ""
    · subst h
      simp [diffLines]
      decide
    · simp [diffLines, h]

/-- C9: for all strings `a` and `b`, the (unchanged, added, removed) triple
of `diffLines a b` conserves line counts: unchanged + added counts the lines
of `b` and unchanged + removed counts the lines of `a`. -/
theorem claim_c9_diff_conservation (a b : String) :
    (diffLines a b).1 + (diffLines a b).2.1 = countLinesStr b ∧
    (diffLines a b).1 + (diffLines a b).2.2 = countLinesStr a := by
  by_cases hab : a = b
  · subst hab
    simp [diffLines]
  · by_cases ha : a = ""
    · subst ha
      simp [diffLines, hab]
      decide
    · by_cases hb : b = ""
      · subst hb
        simp [diffLines, hab, ha]
        decide
      · simp only [diffLines, if_neg hab, if_neg ha, if_neg hb]
        exact ⟨diffCounts_lcsDiff_target a b, diffCounts_lcsDiff_source a b⟩

/-- C3: for non-empty `filesTouched`, `CalculateAttribution` returns a
result whose `TotalCommitted` is the total commit-added line count, falling
back to the total agent-added count when no lines were added, whose
`AgentPercentage` equals `100 * totalAgentAdded / totalInCommit` (and is 0
when `totalInCommit` is 0), and whose `AgentPercentage` lies in [0, 100]. -/
theorem claim_c3_agent_percentage (bT cT mT : Tree) (fs : List String) (h : fs ≠ []) :
    ∃ r, CalculateAttribution bT cT mT fs = some r ∧
      r.AgentLines = (attributionTotals bT cT mT fs).agentAdded ∧
      r.TotalCommitted =
        (if (attributionTotals bT cT mT fs).commitAdded = 0
         then (attributionTotals bT cT mT fs).agentAdded
         else (attributionTotals bT cT mT fs).commitAdded) ∧
      r.AgentPercentage = 100 * (r.AgentLines : ℚ) / (r.TotalCommitted : ℚ) ∧
      (r.TotalCommitted = 0 → r.AgentPercentage = 0) ∧
      0 ≤ r.AgentPercentage ∧ r.AgentPercentage ≤ 100 := by
  simp only [CalculateAttribution, if_neg h]
  refine ⟨_, rfl, rfl, rfl, ?_, ?_, ?_, ?_⟩
  all_goals
    obtain ⟨ha0, hac, hc0⟩ := attributionTotals_bounds bT cT mT fs
    set t := attributionTotals bT cT mT fs with ht
    set tic : Int := if t.commitAdded = 0 then t.agentAdded else t.commitAdded with htic
    have htic0 : 0 ≤ tic := by rw [htic]; split_ifs <;> omega
    have hatic : t.agentAdded ≤ tic := by rw [htic]; split_ifs <;> omega
    dsimp only
  · by_cases hpos : 0 < tic
    · rw [if_pos hpos]
      have : (tic : ℚ) ≠ 0 := by
        exact_mod_cast (by omega : tic ≠ 0)
      field_simp
      ring
    · rw [if_neg hpos]
      have h0 : tic = 0 := by omega
      have ha : t.agentAdded = 0 := by omega
      rw [h0, ha]
      norm_num
  · intro h0
    rw [h0]
    rw [if_neg (by omega : ¬ (0:Int) < 0)]
  · by_cases hpos : 0 < tic
    · rw [if_pos hpos]
      have h1 : (0 : ℚ) ≤ (t.agentAdded : ℚ) := by exact_mod_cast ha0
      have h2 : (0 : ℚ) < (tic : ℚ) := by exact_mod_cast hpos
      positivity
    · rw [if_neg hpos]
  · by_cases hpos : 0 < tic
    · rw [if_pos hpos]
      have h2 : (0 : ℚ) < (tic : ℚ) := by exact_mod_cast hpos
      have h3 : (t.agentAdded : ℚ) ≤ (tic : ℚ) := by exact_mod_cast hatic
      rw [div_mul_eq_mul_div, mul_comm]
      rw [div_le_iff₀ h2]
      nlinarith
    · rw [if_neg hpos]
      norm_num

/-- C7: `CalculateAttribution` is total over degenerate inputs: it returns
nil exactly when `filesTouched` is empty, and with nil trees (every file
reading as empty content) and non-empty `filesTouched` it returns a non-nil
result with `TotalCommitted = 0`. -/
theorem claim_c7_degenerate_inputs :
    (∀ (bT cT mT : Tree) (fs : List String),
        CalculateAttribution bT cT mT fs = none ↔ fs = []) ∧
    (∀ fs : List String, fs ≠ [] →
        ∃ r, CalculateAttribution none none none fs = some r ∧
          r.TotalCommitted = 0) := by
  constructor
  · intro bT cT mT fs
    constructor
    · intro hnone
      by_contra hne
      simp only [CalculateAttribution, if_neg hne] at hnone
      exact Option.noConfusion hnone
    · intro he
      simp [CalculateAttribution, he]
  · intro fs hne
    simp only [CalculateAttribution, if_neg hne, attributionTotals_nil_trees]
    exact ⟨_, rfl, rfl⟩

/-- C2: the accumulated-attribution computation on the scenario of the spec (agent
adds 10 lines to file F base-to-checkpoint, the user adds 5 lines to F
recorded in a `PromptAttribution`, the user then removes 3 of their own lines
and adds 3 different lines in F) yields per-file self-modification 3, zero
agent lines charged to the human, 10 agent lines in the commit, 15 total
committed lines and an agent percentage of 200/3, approximately 66.7. -/
theorem claim_c2_self_modification_scenario :
    (CalculateAttributionWithAccumulated
        [⟨5, 0, [("F", 5)]⟩] 15 [("F", 3)] [("F", 3)]).selfModified = 3 ∧
    (CalculateAttributionWithAccumulated
        [⟨5, 0, [("F", 5)]⟩] 15 [("F", 3)] [("F", 3)]).humanModifiedAgentLines = 0 ∧
    (CalculateAttributionWithAccumulated
        [⟨5, 0, [("F", 5)]⟩] 15 [("F", 3)] [("F", 3)]).agentLinesInCommit = 10 ∧
    (CalculateAttributionWithAccumulated
        [⟨5, 0, [("F", 5)]⟩] 15 [("F", 3)] [("F", 3)]).totalCommitted = 15 ∧
    (CalculateAttributionWithAccumulated
        [⟨5, 0, [("F", 5)]⟩] 15 [("F", 3)] [("F", 3)]).agentPercentage = 200 / 3 ∧
    (663 : ℚ) / 10 < (CalculateAttributionWithAccumulated
        [⟨5, 0, [("F", 5)]⟩] 15 [("F", 3)] [("F", 3)]).agentPercentage ∧
    (CalculateAttributionWithAccumulated
        [⟨5, 0, [("F", 5)]⟩] 15 [("F", 3)] [("F", 3)]).agentPercentage < (667 : ℚ) / 10 := by
  refine ⟨by decide, by decide, by decide, by decide, ?_, ?_, ?_⟩
  · show ((10 : ℚ) / 15 * 100) = 200 / 3
    norm_num
  · show (663 : ℚ) / 10 < (10 : ℚ) / 15 * 100
    norm_num
  · show ((10 : ℚ) / 15 * 100) < (667 : ℚ) / 10
    norm_num

/-- C4: when the recorded `BaseCommit` is non-empty and differs from the
live HEAD (and the ref store accepts the new-ref write), migration returns
`migrated = true` with no error and sets `state.BaseCommit` to the live
HEAD. If the old shadow ref does not exist, no ref operations are performed;
if it exists, a ref at the new base-derived name is created pointing at the
same commit hash, the old ref is deleted, and a failure to delete the old
ref still yields success. -/
theorem claim_c4_migration_stale_to_stable (repo : GitRepo) (state : SessionState)
    (head : String) (hhead : repo.head = some head)
    (hbase : state.BaseCommit ≠ "") (hne : state.BaseCommit ≠ head) :
    (refLookup repo.refs (ShadowBranchNameForCommit state.BaseCommit state.WorktreeID) = none →
      migrateShadowBranchIfNeeded repo state =
        .ok (true, { state with BaseCommit := head }, repo.refs)) ∧
    (∀ oldHash,
      refLookup repo.refs (ShadowBranchNameForCommit state.BaseCommit state.WorktreeID) =
          some oldHash →
      repo.setRefFails = false →
      ∃ refs2, migrateShadowBranchIfNeeded repo state =
            .ok (true, { state with BaseCommit := head }, refs2) ∧
          refLookup refs2 (ShadowBranchNameForCommit head state.WorktreeID) = some oldHash ∧
          (repo.removeRefFails = false →
            refLookup refs2 (ShadowBranchNameForCommit state.BaseCommit state.WorktreeID) =
              none)) := by
  have hnames : ShadowBranchNameForCommit head state.WorktreeID ≠
      ShadowBranchNameForCommit state.BaseCommit state.WorktreeID :=
    shadowBranchName_inj head state.BaseCommit state.WorktreeID (Ne.symm hne)
  constructor
  · intro hold
    simp only [migrateShadowBranchIfNeeded, if_neg hbase, hhead, if_neg hne, hold]
  · intro oldHash hold hset
    simp only [migrateShadowBranchIfNeeded, if_neg hbase, hhead, if_neg hne, hold, hset,
      Bool.false_eq_true, if_false]
    refine ⟨_, rfl, ?_, ?_⟩
    · by_cases hrm : repo.removeRefFails
      · simp only [hrm, if_true]
        exact refLookup_refSet_self repo.refs _ oldHash
      · simp only [hrm, Bool.false_eq_true, if_false]
        rw [refLookup_refRemove_other _ _ _ hnames]
        exact refLookup_refSet_self repo.refs _ oldHash
    · intro hrm
      simp only [hrm, Bool.false_eq_true, if_false]
      exact refLookup_refRemove_self _ _

/-- C5: when the recorded `BaseCommit` is non-empty and differs from the
live HEAD, a successful migration yields `migrated = true`; calling the
migration again with HEAD unchanged yields `migrated = false` and changes
nothing; and the shadow branch name derived from the resulting state equals
the name derived from the live HEAD and the worktree id. -/
theorem claim_c5_migration_idempotence (repo : GitRepo) (state : SessionState)
    (head : String) (hhead : repo.head = some head)
    (hbase : state.BaseCommit ≠ "") (hne : state.BaseCommit ≠ head)
    (m1 : Bool) (st1 : SessionState) (refs1 : List (String × String))
    (h1 : migrateShadowBranchIfNeeded repo state = .ok (m1, st1, refs1)) :
    m1 = true ∧
    migrateShadowBranchIfNeeded { repo with refs := refs1 } st1 = .ok (false, st1, refs1) ∧
    ShadowBranchNameForCommit st1.BaseCommit st1.WorktreeID =
      ShadowBranchNameForCommit head state.WorktreeID := by
  simp only [migrateShadowBranchIfNeeded, if_neg hbase, hhead, if_neg hne] at h1
  have hst1 : m1 = true ∧ st1 = { state with BaseCommit := head } := by
    rcases hfind : refLookup repo.refs
        (ShadowBranchNameForCommit state.BaseCommit state.WorktreeID) with _ | oldHash
    · rw [hfind] at h1
      simp only [Except.ok.injEq, Prod.mk.injEq] at h1
      exact ⟨h1.1.symm, h1.2.1.symm⟩
    · rw [hfind] at h1
      by_cases hset : repo.setRefFails
      · simp only [hset, if_true] at h1
        exact absurd h1 (by simp)
      · simp only [hset, Bool.false_eq_true, if_false, Except.ok.injEq, Prod.mk.injEq] at h1
        exact ⟨h1.1.symm, h1.2.1.symm⟩
  obtain ⟨hm1, hst⟩ := hst1
  have hbc : st1.BaseCommit = head := by rw [hst]
  have hwt : st1.WorktreeID = state.WorktreeID := by rw [hst]
  refine ⟨hm1, ?_, by rw [hbc, hwt]⟩
  by_cases hh : head = ""
  · rw [migrateShadowBranchIfNeeded, if_pos (by rw [hbc, hh])]
  · rw [migrateShadowBranchIfNeeded, if_neg (by rw [hbc]; exact hh)]
    simp only [hhead, hbc, if_pos rfl, if_true]

/-- C6: a fresh-session prompt (warning flag not yet set) is blocked — the
agent is not invoked (`continueFlag = false`), a human-readable reason is
returned and `ConcurrentWarningShown` is set — exactly when some live
session sharing context has `CheckpointCount > 0`; a concurrent session with
zero checkpoints never triggers the block; and once `ConcurrentWarningShown`
is set, every subsequent prompt proceeds regardless of the status of the
other sessions. -/
theorem claim_c6_concurrency_gate (others : List GateSession) (st : GateSession) :
    (st.ConcurrentWarningShown = false →
      (((handlePromptSubmit others st).1.continueFlag = false ∧
        (handlePromptSubmit others st).1.stopReason ≠ "" ∧
        (handlePromptSubmit others st).2.ConcurrentWarningShown = true)
       ↔ ∃ o ∈ others, 0 < o.CheckpointCount)) ∧
    ((∀ o ∈ others, o.CheckpointCount = 0) →
      (handlePromptSubmit others st).1.continueFlag = true ∧
      (handlePromptSubmit others st).2 = st) ∧
    (st.ConcurrentWarningShown = true →
      (handlePromptSubmit others st).1.continueFlag = true ∧
      (handlePromptSubmit others st).2 = st) := by
  refine ⟨?_, ?_, ?_⟩
  · intro hflag
    by_cases hdet : detectConcurrentSession others = true
    · simp only [handlePromptSubmit, hflag, Bool.false_eq_true, if_false, hdet, if_true]
      constructor
      · intro _
        simpa [detectConcurrentSession] using hdet
      · intro _
        refine ⟨by simp, by simp, by simp⟩
    · have hdet2 : detectConcurrentSession others = false := by
        simpa using hdet
      simp only [handlePromptSubmit, hflag, Bool.false_eq_true, if_false, hdet2]
      constructor
      · intro ⟨hc, _, _⟩
        simp at hc
      · intro ⟨o, ho, hcount⟩
        exfalso
        have hall : others.any (fun s => 0 < s.CheckpointCount) = false := hdet2
        rw [List.any_eq_false] at hall
        exact absurd (by simpa using hcount) (by simpa using hall o ho)
  · intro hzero
    have hdet : detectConcurrentSession others = false := by
      simp only [detectConcurrentSession, List.any_eq_false]
      intro o ho
      simp [hzero o ho]
    by_cases hflag : st.ConcurrentWarningShown
    · simp [handlePromptSubmit, hflag]
    · simp [handlePromptSubmit, hflag, hdet]
  · intro hflag
    simp [handlePromptSubmit, hflag]

/-- C10: every generated `CheckpointID` is a 12-character lowercase-hex
string that `Parse` round-trips (`Parse (id.String()) = id`) and whose
sharded path is its first two characters, a slash, and the remaining ten;
`Path()` of any id of length at least 3 is `s[0:2] + "/" + s[2:]`, and of
any shorter id is the string unchanged. -/
theorem claim_c10_checkpoint_identity :
    (∀ entropy : List (Fin 256), 6 ≤ entropy.length →
      ∃ id, Generate entropy = some id ∧
        id.str.length = 12 ∧
        id.str.data.all isHexLower = true ∧
        NewCheckpointID id.str = some id ∧
        id.Path = id.str.take 2 ++ "/" ++ id.str.drop 2) ∧
    (∀ id : CheckpointID, 3 ≤ id.value.length →
      id.Path = id.value.take 2 ++ "/" ++ id.value.drop 2) ∧
    (∀ id : CheckpointID, id.value.length < 3 → id.Path = id.value) := by
  have hexDigit_ok : ∀ n : Fin 16, isHexLower (hexDigitChar n.val) = true := by decide
  have byteHex_ok : ∀ b : Fin 256, ∀ c ∈ byteToHex b, isHexLower c = true := by
    intro b c hc
    have hb := b.isLt
    simp only [byteToHex, List.mem_cons, List.not_mem_nil, or_false] at hc
    rcases hc with h | h
    · subst h; exact hexDigit_ok ⟨b.val / 16, by omega⟩
    · subst h; exact hexDigit_ok ⟨b.val % 16, by omega⟩
  have flat_len : ∀ l : List (Fin 256), (l.flatMap byteToHex).length = 2 * l.length := by
    intro l
    induction l with
    | nil => simp
    | cons b rest ih => simp [List.flatMap_cons, byteToHex, ih]; omega
  have flat_all : ∀ l : List (Fin 256), (l.flatMap byteToHex).all isHexLower = true := by
    intro l
    induction l with
    | nil => simp
    | cons b rest ih =>
        simp only [List.flatMap_cons, List.all_append, ih, Bool.and_true]
        simp only [List.all_eq_true]
        exact byteHex_ok b
  refine ⟨?_, ?_, ?_⟩
  · intro entropy hlen
    rw [Generate, if_neg (by omega)]
    set s : String := String.mk ((entropy.take 6).flatMap byteToHex) with hs
    have hslen : s.length = 12 := by
      rw [hs]
      show ((entropy.take 6).flatMap byteToHex).length = 12
      rw [flat_len, List.length_take]
      omega
    have hsall : s.data.all isHexLower = true := flat_all _
    refine ⟨⟨s⟩, rfl, hslen, hsall, ?_, ?_⟩
    · rw [NewCheckpointID, CheckpointID.str]
      rw [if_pos (by rw [hslen, hsall]; simp)]
    · rw [CheckpointID.Path, CheckpointID.str]
      rw [if_pos (by rw [hslen]; omega)]
  · intro id h
    rw [CheckpointID.Path, if_pos h]
  · intro id h
    rw [CheckpointID.Path, if_neg (by omega)]

/-! ## Witnesses -/

/-- Witness for C1 at concrete file contents. -/
theorem claim_c1_per_file_attribution_witness :
    (("a\n" : String) ≠ "b\n" ∧
      fileContribution "a\n" "" "b\n" =
        ⟨max 0 (((diffLines "a\n" "b\n").2.1 : Int) - ((diffLines "" "b\n").2.1 : Int)),
         ((diffLines "" "b\n").2.1 : Int) -
           min ((diffLines "" "b\n").2.1 : Int) ((diffLines "" "b\n").2.2 : Int),
         min ((diffLines "" "b\n").2.1 : Int) ((diffLines "" "b\n").2.2 : Int),
         min (((diffLines "" "b\n").2.2 : Int) -
             min ((diffLines "" "b\n").2.1 : Int) ((diffLines "" "b\n").2.2 : Int))
           (max 0 (((diffLines "a\n" "b\n").2.2 : Int) -
             max 0 ((countLinesStr "a\n" : Int) - (countLinesStr "" : Int)))),
         ((diffLines "a\n" "b\n").2.1 : Int)⟩) ∧
    (("x" : String) = "x" ∧ fileContribution "x" "" "x" = ⟨0, 0, 0, 0, 0⟩) :=
  ⟨⟨by decide, (claim_c1_per_file_attribution "a\n" "" "b\n").1 (by decide)⟩,
   ⟨rfl, (claim_c1_per_file_attribution "x" "" "x").2 rfl⟩⟩

/-- Witness for C3 at a concrete call. -/
theorem claim_c3_agent_percentage_witness :
    (["f"] : List String) ≠ [] ∧
    ∃ r, CalculateAttribution none none none ["f"] = some r ∧
      r.AgentLines = (attributionTotals none none none ["f"]).agentAdded ∧
      r.TotalCommitted =
        (if (attributionTotals none none none ["f"]).commitAdded = 0
         then (attributionTotals none none none ["f"]).agentAdded
         else (attributionTotals none none none ["f"]).commitAdded) ∧
      r.AgentPercentage = 100 * (r.AgentLines : ℚ) / (r.TotalCommitted : ℚ) ∧
      (r.TotalCommitted = 0 → r.AgentPercentage = 0) ∧
      0 ≤ r.AgentPercentage ∧ r.AgentPercentage ≤ 100 :=
  ⟨by decide, claim_c3_agent_percentage none none none ["f"] (by decide)⟩

/-- Witness for C4: migration with and without an existing old shadow ref. -/
theorem claim_c4_migration_stale_to_stable_witness :
    (("h1" : String) ≠ "" ∧ ("h1" : String) ≠ "h2") ∧
    (∃ refs2,
        migrateShadowBranchIfNeeded
            ⟨some "h2", [("entire/wt/h1", "c1")], false, false⟩ ⟨"h1", "wt"⟩ =
          .ok (true, ⟨"h2", "wt"⟩, refs2) ∧
        refLookup refs2 (ShadowBranchNameForCommit "h2" "wt") = some "c1" ∧
        (false = false →
          refLookup refs2 (ShadowBranchNameForCommit "h1" "wt") = none)) ∧
    migrateShadowBranchIfNeeded ⟨some "h2", [], false, false⟩ ⟨"h1", "wt"⟩ =
      .ok (true, ⟨"h2", "wt"⟩, []) :=
  ⟨⟨by decide, by decide⟩,
   (claim_c4_migration_stale_to_stable ⟨some "h2", [("entire/wt/h1", "c1")], false, false⟩
       ⟨"h1", "wt"⟩ "h2" rfl (by decide) (by decide)).2 "c1" (by decide) rfl,
   (claim_c4_migration_stale_to_stable ⟨some "h2", [], false, false⟩
       ⟨"h1", "wt"⟩ "h2" rfl (by decide) (by decide)).1 (by decide)⟩

/-- Witness for C5: a concrete migration followed by a no-op second call. -/
theorem claim_c5_migration_idempotence_witness :
    (true = true) ∧
    migrateShadowBranchIfNeeded
        ⟨some "h2", [("entire/wt/h2", "c1")], false, false⟩ ⟨"h2", "wt"⟩ =
      .ok (false, ⟨"h2", "wt"⟩, [("entire/wt/h2", "c1")]) ∧
    ShadowBranchNameForCommit "h2" "wt" = ShadowBranchNameForCommit "h2" "wt" :=
  claim_c5_migration_idempotence ⟨some "h2", [("entire/wt/h1", "c1")], false, false⟩
    ⟨"h1", "wt"⟩ "h2" rfl (by decide) (by decide) true ⟨"h2", "wt"⟩
    [("entire/wt/h2", "c1")] rfl

/-- Witness for C6: a fresh session against a session with one checkpoint,
a fresh session against a checkpoint-less session, and a session with the
warning flag already set. -/
theorem claim_c6_concurrency_gate_witness :
    ((⟨0, false⟩ : GateSession).ConcurrentWarningShown = false ∧
      (((handlePromptSubmit [⟨1, false⟩] ⟨0, false⟩).1.continueFlag = false ∧
        (handlePromptSubmit [⟨1, false⟩] ⟨0, false⟩).1.stopReason ≠ "" ∧
        (handlePromptSubmit [⟨1, false⟩] ⟨0, false⟩).2.ConcurrentWarningShown = true)
       ↔ ∃ o ∈ [(⟨1, false⟩ : GateSession)], 0 < o.CheckpointCount)) ∧
    ((∀ o ∈ [(⟨0, false⟩ : GateSession)], o.CheckpointCount = 0) ∧
      (handlePromptSubmit [⟨0, false⟩] ⟨0, false⟩).1.continueFlag = true ∧
      (handlePromptSubmit [⟨0, false⟩] ⟨0, false⟩).2 = ⟨0, false⟩) ∧
    ((⟨0, true⟩ : GateSession).ConcurrentWarningShown = true ∧
      (handlePromptSubmit [⟨1, false⟩] ⟨0, true⟩).1.continueFlag = true ∧
      (handlePromptSubmit [⟨1, false⟩] ⟨0, true⟩).2 = ⟨0, true⟩) :=
  ⟨⟨rfl, (claim_c6_concurrency_gate [⟨1, false⟩] ⟨0, false⟩).1 rfl⟩,
   ⟨by decide, (claim_c6_concurrency_gate [⟨0, false⟩] ⟨0, false⟩).2.1 (by decide)⟩,
   ⟨rfl, (claim_c6_concurrency_gate [⟨1, false⟩] ⟨0, true⟩).2.2 rfl⟩⟩

/-- Witness for the non-empty-input clause of C7 at a concrete call. -/
theorem claim_c7_degenerate_inputs_witness :
    (["f"] : List String) ≠ [] ∧
    ∃ r, CalculateAttribution none none none ["f"] = some r ∧ r.TotalCommitted = 0 :=
  ⟨by decide, claim_c7_degenerate_inputs.2 ["f"] (by decide)⟩

/-- Witness for C10 at a concrete entropy input and concrete short ids. -/
theorem claim_c10_checkpoint_identity_witness :
    (6 ≤ ([0, 1, 2, 3, 4, 5] : List (Fin 256)).length) ∧
    (∃ id, Generate [0, 1, 2, 3, 4, 5] = some id ∧
      id.str.length = 12 ∧
      id.str.data.all isHexLower = true ∧
      NewCheckpointID id.str = some id ∧
      id.Path = id.str.take 2 ++ "/" ++ id.str.drop 2) ∧
    CheckpointID.Path ⟨"abc"⟩ = ("abc" : String).take 2 ++ "/" ++ ("abc" : String).drop 2 ∧
    CheckpointID.Path ⟨"ab"⟩ = "ab" :=
  ⟨by decide,
   claim_c10_checkpoint_identity.1 [0, 1, 2, 3, 4, 5] (by decide),
   claim_c10_checkpoint_identity.2.1 ⟨"abc"⟩ (by decide),
   claim_c10_checkpoint_identity.2.2 ⟨"ab"⟩ (by decide)⟩

end Entire
